import Mathlib

/-!
Shallow embedding of the stock-screener repository's analysis engine.

Prices are modelled as rationals.  Pandas/numpy NaN values (which arise from
`shift(1)` on the first row and from rolling windows shorter than their
period) are modelled as `Option ℚ` with `none` for NaN; numpy's `maximum`,
`abs` and arithmetic propagate NaN, and Python's `x != 0` is `True` for NaN.

Embedded code:
* `streamlit-screener.py`, `run_pattern_tracker` and the module-level entry
  advice branch;
* `trading.py`, `StockScreenerApp.quick_analyze`.
-/

namespace StockScreener

/-- One OHLC bar of the fetched daily history (the `df` rows).  Volume is not
used by any embedded computation. -/
structure Bar where
  Open : ℚ
  High : ℚ
  Low : ℚ
  Close : ℚ
deriving Repr, DecidableEq

instance : Inhabited Bar := ⟨⟨0, 0, 0, 0⟩⟩

/-- Convenience constructor used by the concrete test series: a bar whose
open equals its low and whose close equals its high. -/
def mkBar (lo hi : ℚ) : Bar := { Open := lo, High := hi, Low := lo, Close := hi }

/-- `df['Size'] = df['High'] - df['Low']` for one bar. -/
def size (b : Bar) : ℚ := b.High - b.Low

/-- The `Size` column of the frame. -/
def sizes (bars : List Bar) : List ℚ := bars.map size

/-- Recursive worker for pandas `ewm(span, adjust=False).mean()`: carries the
previous smoothed value and emits `a*x + (1-a)*prev` per element. -/
def ewmAux (a : ℚ) (prev : ℚ) : List ℚ → List ℚ
  | [] => []
  | x :: xs => (a * x + (1 - a) * prev) :: ewmAux a (a * x + (1 - a) * prev) xs

/-- `series.ewm(span=span, adjust=False).mean()`: the first value seeds with
the first element, later values follow the recursive smoothing with weight
`a = 2/(span+1)`. -/
def ewmMean (span : ℕ) (xs : List ℚ) : List ℚ :=
  match xs with
  | [] => []
  | x :: rest => x :: ewmAux (2 / ((span : ℚ) + 1)) x rest

/-- `df['TR'] = np.maximum(High - Low, np.maximum(abs(High - Close.shift(1)),
abs(Low - Close.shift(1))))`.  At index 0 the shifted close is NaN; numpy's
`abs` and `maximum` propagate it, so the first true range is NaN (`none`). -/
def trueRange (bars : List Bar) (i : ℕ) : Option ℚ :=
  if i = 0 then none
  else if i < bars.length then
    some (max ((bars.getD i default).High - (bars.getD i default).Low)
      (max |(bars.getD i default).High - (bars.getD (i - 1) default).Close|
           |(bars.getD i default).Low - (bars.getD (i - 1) default).Close|))
  else none

/-- `df['ATR'] = df['TR'].rolling(window=14).mean()`: the mean of the 14
true ranges ending at index `i`; NaN (`none`) when the window is incomplete
or contains the NaN first true range, mirroring pandas. -/
def ATR (bars : List Bar) (i : ℕ) : Option ℚ :=
  if 13 ≤ i ∧ i < bars.length then
    ((List.range 14).mapM (fun k => trueRange bars (i - k))).map (fun ts => ts.sum / 14)
  else none

/-- `bool(x > y)` on two possibly-NaN floats: any comparison with NaN is
`False` in Python/numpy. -/
def optGT : Option ℚ → Option ℚ → Bool
  | some a, some b => decide (b < a)
  | _, _ => false

/-- `float(num / den) if den != 0 else 0` with NaN modelled as `none`:
`NaN != 0` is `True` in Python, and dividing by (or into) NaN yields NaN, so
a NaN denominator or numerator propagates, while a zero denominator takes the
`else` branch and yields `0`. -/
def ratioOrZero (num den : Option ℚ) : Option ℚ :=
  match den with
  | none => none
  | some d => if d = 0 then some 0 else num.map (fun n => n / d)

/-- `float(leg_out / base) if base != 0 else 0` (line 93): the plain-float
variant of the guarded ratio. -/
def ratioOut (legOut base : ℚ) : ℚ := if base = 0 then 0 else legOut / base

/-- The backward scout loop of lines 65-69: `for i in range(len(df)-2, 2, -1)`
checks whether bar `i` is strictly smaller than both neighbours and `break`s
at the first (most recent) hit; indices below 3 are never examined. -/
def findBaseAux (s : List ℚ) : ℕ → Option ℕ
  | 0 => none
  | 1 => none
  | 2 => none
  | i + 3 =>
    if s.getD (i + 3) 0 < s.getD (i + 2) 0 ∧ s.getD (i + 3) 0 < s.getD (i + 4) 0
    then some (i + 3)
    else findBaseAux s (i + 2)

/-- `best_base_idx` after the scout loop: `some i` when a base was found,
`none` for the sentinel `-1`. -/
def bestBaseIdx (bars : List Bar) : Option ℕ :=
  findBaseAux (sizes bars) (bars.length - 2)

/-- The anchors the code actually emits: the single `best_base_idx` when one
exists, as a (0- or 1-element) list of anchor indices. -/
def codeCandidates (bars : List Bar) : List ℕ :=
  (bestBaseIdx bars).toList

/-- Bar `i` has a strictly smaller range than both its neighbours — the
scout loop's acceptance test. -/
def isLocalMin (s : List ℚ) (i : ℕ) : Prop :=
  s.getD i 0 < s.getD (i - 1) 0 ∧ s.getD i 0 < s.getD (i + 1) 0

instance (s : List ℚ) (i : ℕ) : Decidable (isLocalMin s i) := by
  unfold isLocalMin; infer_instance

/-- Lines 96-99: `violation_days = post_setup_df[post_setup_df['Low'] <
base_high]`, counted over `df.iloc[best_base_idx+1:]`. -/
def violationCount (bars : List Bar) (baseIdx : ℕ) (ceiling : ℚ) : ℕ :=
  ((bars.drop (baseIdx + 1)).filter (fun b => decide (b.Low < ceiling))).length

/-- Line 98: `res["white_area_clean"] = violation_days.empty`. -/
def whiteAreaClean (bars : List Bar) (baseIdx : ℕ) (ceiling : ℚ) : Bool :=
  ((bars.drop (baseIdx + 1)).filter (fun b => decide (b.Low < ceiling))).isEmpty

/-- Line 100: `((price - base_high) / base_high) * 100`. -/
def distancePct (price ceiling : ℚ) : ℚ := (price - ceiling) / ceiling * 100

/-- The `res` dictionary built by `run_pattern_tracker`; the keys only added
inside `if best_base_idx != -1` are `Option`-valued. -/
structure ScanRes where
  price : ℚ
  tr_val : Option ℚ
  atr_val : Option ℚ
  tr_atr : Option ℚ
  momentum : Bool
  candle_found : Bool
  base_high : Option ℚ
  base_low : Option ℚ
  is_golden : Option Bool
  ratio_out : Option ℚ
  white_area_clean : Option Bool
  violation_count : Option ℕ
  distance_pct : Option ℚ
deriving Repr, DecidableEq

/-- `run_pattern_tracker` on an already-fetched history: `none` models the
early `(None, {...})` return for an empty frame; otherwise the `res`
dictionary is assembled, with the base block filled only when the scout loop
found a `best_base_idx`. -/
def runPatternTracker (bars : List Bar) : Option ScanRes :=
  if bars.isEmpty then none
  else
    let n := bars.length
    let trLast := trueRange bars (n - 1)
    let atrLast := ATR bars (n - 1)
    let price := (bars.getD (n - 1) default).Close
    match bestBaseIdx bars with
    | none =>
      some { price := price, tr_val := trLast, atr_val := atrLast,
             tr_atr := ratioOrZero trLast atrLast,
             momentum := optGT trLast atrLast,
             candle_found := false,
             base_high := none, base_low := none, is_golden := none,
             ratio_out := none, white_area_clean := none,
             violation_count := none, distance_pct := none }
    | some i =>
      let bh := (bars.getD i default).High
      let legIn := (sizes bars).getD (i - 1) 0
      let anchor := (sizes bars).getD i 0
      let legOut := (sizes bars).getD (i + 1) 0
      some { price := price, tr_val := trLast, atr_val := atrLast,
             tr_atr := ratioOrZero trLast atrLast,
             momentum := optGT trLast atrLast,
             candle_found := true,
             base_high := some bh,
             base_low := some (bars.getD i default).Low,
             is_golden := some (decide (2 * anchor ≤ legIn ∧ 4 * anchor ≤ legOut)),
             ratio_out := some (ratioOut legOut anchor),
             white_area_clean := some (whiteAreaClean bars i bh),
             violation_count := some (violationCount bars i bh),
             distance_pct := some (distancePct price bh) }

/-- The three entry-advice outcomes of lines 171-177 (`st.success`,
`st.info`, `st.warning`). -/
inductive Advice where
  | goldenEntry
  | fairEntry
  | overextended
deriving Repr, DecidableEq

/-- Lines 171-177: `if distance_pct < 2.5: GOLDEN; elif distance_pct < 5.0:
FAIR; else: OVEREXTENDED`. -/
def entryAdvice (d : ℚ) : Advice :=
  if d < 5 / 2 then Advice.goldenEntry
  else if d < 5 then Advice.fairEntry
  else Advice.overextended

/-- pandas `.max()` over a column slice: NaN (`none`) on an empty slice,
otherwise the maximum element. -/
def seriesMax : List ℚ → Option ℚ
  | [] => none
  | x :: xs =>
    match seriesMax xs with
    | none => some x
    | some m => some (max x m)

/-- `trading.py` line 98: `df['EMA20'].iloc[-1] > df['EMA50'].iloc[-1] and
df['Close'].iloc[-1] > df['Open'].iloc[-1]`. -/
def pulse (bars : List Bar) : Bool :=
  decide ((ewmMean 50 (bars.map Bar.Close)).getD (bars.length - 1) 0
            < (ewmMean 20 (bars.map Bar.Close)).getD (bars.length - 1) 0)
    && decide ((bars.getD (bars.length - 1) default).Open
                 < (bars.getD (bars.length - 1) default).Close)

/-- `trading.py` lines 90-91: the 1-2-4 test on the last three bars,
`leg_in >= 2*base and leg_out >= 4*base` with `leg_in, base, leg_out =
Size[-3], Size[-2], Size[-1]`. -/
def ratioPass (bars : List Bar) : Bool :=
  decide (2 * (sizes bars).getD (bars.length - 2) 0
            ≤ (sizes bars).getD (bars.length - 3) 0)
    && decide (4 * (sizes bars).getD (bars.length - 2) 0
                 ≤ (sizes bars).getD (bars.length - 1) 0)

/-- `trading.py` line 94: `df['High'].iloc[-8:-1].max()` — the highs at the
seven positions before the last bar (Python slicing clamps the start at 0
just as ℕ subtraction does). -/
def prev7dHigh (bars : List Bar) : Option ℚ :=
  seriesMax (((bars.map Bar.High).drop (bars.length - 8)).dropLast)

/-- `trading.py` line 95: `df['Low'].iloc[-1] > prev_7d_high`; a NaN maximum
(empty slice) compares as `False`. -/
def whiteAreaPass (bars : List Bar) : Bool :=
  match prev7dHigh bars with
  | none => false
  | some m => decide (m < (bars.getD (bars.length - 1) default).Low)

/-- The verdict condition of `trading.py` line 107:
`pulse and ratio_pass and white_area_pass`. -/
def safeToInvest (bars : List Bar) : Bool :=
  pulse bars && ratioPass bars && whiteAreaPass bars

/-- The report's verdict line (`trading.py` line 107). -/
def quickVerdict (bars : List Bar) : String :=
  if safeToInvest bars then "SAFE TO INVEST" else "AVOID - SETUP INCOMPLETE"

/-- Modelled from the spec, section 4.3 (the source has no exhaustive
scanner): every index `i` in `[1, N-2]` with non-zero anchor range whose
leg-in is at least `1.5x` and leg-out at least `2x` the anchor range, in
ascending order.  Used to compare the spec's Pattern Scanner against the
code's scout loop. -/
def specScanCandidates (bars : List Bar) : List ℕ :=
  (List.range bars.length).filter (fun i =>
    decide (1 ≤ i ∧ i + 1 < bars.length ∧ (sizes bars).getD i 0 ≠ 0 ∧
      3 / 2 * (sizes bars).getD i 0 ≤ (sizes bars).getD (i - 1) 0 ∧
      2 * (sizes bars).getD i 0 ≤ (sizes bars).getD (i + 1) 0))

/-- Pristine status of the anchor at index `i`: the code's white-area check
(lines 96-99) applied at that anchor's ceiling. -/
def pristineAt (bars : List Bar) (i : ℕ) : Bool :=
  whiteAreaClean bars i (bars.getD i default).High

/-- The spec's composite selection key `(is_pristine, leg_out_ratio)`,
as a lexicographic order: candidate `j` is at most candidate `i` when `i` is
pristine and `j` is not, or both have equal pristine status and `j`'s
leg-out ratio is at most `i`'s. -/
def candKeyLE (bars : List Bar) (j i : ℕ) : Prop :=
  (pristineAt bars j = false ∧ pristineAt bars i = true) ∨
  (pristineAt bars j = pristineAt bars i ∧
    ratioOut ((sizes bars).getD (j + 1) 0) ((sizes bars).getD j 0)
      ≤ ratioOut ((sizes bars).getD (i + 1) 0) ((sizes bars).getD i 0))

/-! Helper lemmas. -/

theorem filter_length_drop {α : Type} [Inhabited α] (p : α → Bool) :
    ∀ (l : List α) (n : ℕ),
      ((l.drop n).filter p).length =
        ((List.range l.length).filter
          (fun i => decide (n ≤ i) && p (l.getD i default))).length := by
  intro l
  induction l with
  | nil => intro n; simp
  | cons x xs ih =>
    intro n
    rw [List.length_cons, List.range_succ_eq_map, List.filter_cons]
    cases n with
    | zero =>
      have h0 := ih 0
      rw [List.drop_zero] at h0
      rw [List.drop_zero, List.filter_cons]
      have hrw : ((List.range xs.length).map Nat.succ).filter
          (fun i => decide (0 ≤ i) && p ((x :: xs).getD i default)) =
          ((List.range xs.length).filter
            (fun i => decide (0 ≤ i) && p (xs.getD i default))).map Nat.succ := by
        rw [List.filter_map]
        congr 1
        apply List.filter_congr
        intro i hi
        simp [List.getD_cons_succ]
      have hc : (decide (0 ≤ 0) && p ((x :: xs).getD 0 default)) = p x := by
        simp [List.getD_cons_zero]
      rw [hc, hrw]
      cases hp : p x
      · rw [if_neg (by simp), if_neg (by simp), List.length_map]
        exact h0
      · rw [if_pos rfl, if_pos rfl, List.length_cons, List.length_cons, List.length_map]
        omega
    | succ n =>
      have h1 := ih n
      rw [List.drop_succ_cons]
      have hrw : ((List.range xs.length).map Nat.succ).filter
          (fun i => decide (n + 1 ≤ i) && p ((x :: xs).getD i default)) =
          ((List.range xs.length).filter
            (fun i => decide (n ≤ i) && p (xs.getD i default))).map Nat.succ := by
        rw [List.filter_map]
        congr 1
        apply List.filter_congr
        intro i hi
        simp [List.getD_cons_succ, Nat.succ_le_succ_iff]
      have hc : (decide (n + 1 ≤ 0) && p ((x :: xs).getD 0 default)) = false := by
        simp
      rw [hc, hrw, if_neg (by simp), List.length_map]
      exact h1

theorem findBaseAux_eq_some (s : List ℚ) :
    ∀ (k i : ℕ), findBaseAux s k = some i ↔
      (3 ≤ i ∧ i ≤ k ∧ isLocalMin s i ∧ ∀ j, i < j → j ≤ k → ¬ isLocalMin s j) := by
  intro k
  induction k using Nat.strong_induction_on with
  | _ k ih =>
    match k with
    | 0 =>
      intro i
      simp only [findBaseAux]
      constructor
      · intro h; exact absurd h (by simp)
      · rintro ⟨h3, hik, -, -⟩; omega
    | 1 =>
      intro i
      simp only [findBaseAux]
      constructor
      · intro h; exact absurd h (by simp)
      · rintro ⟨h3, hik, -, -⟩; omega
    | 2 =>
      intro i
      simp only [findBaseAux]
      constructor
      · intro h; exact absurd h (by simp)
      · rintro ⟨h3, hik, -, -⟩; omega
    | k + 3 =>
      intro i
      have hmin3 : isLocalMin s (k + 3) ↔
          (s.getD (k + 3) 0 < s.getD (k + 2) 0 ∧ s.getD (k + 3) 0 < s.getD (k + 4) 0) := by
        unfold isLocalMin
        have h32 : k + 3 - 1 = k + 2 := by omega
        rw [h32]
      rw [findBaseAux]
      by_cases h : s.getD (k + 3) 0 < s.getD (k + 2) 0 ∧ s.getD (k + 3) 0 < s.getD (k + 4) 0
      · rw [if_pos h]
        constructor
        · intro he
          have hi : i = k + 3 := (Option.some.inj he).symm
          subst hi
          exact ⟨by omega, by omega, hmin3.mpr h, fun j hj hjk => by omega⟩
        · rintro ⟨h3, hik, hmin, hmax⟩
          have hi : i = k + 3 := by
            by_contra hne
            exact hmax (k + 3) (by omega) (by omega) (hmin3.mpr h)
          rw [hi]
      · rw [if_neg h]
        rw [ih (k + 2) (by omega) i]
        constructor
        · rintro ⟨h3, hik, hmin, hmax⟩
          refine ⟨h3, by omega, hmin, fun j hj hjk => ?_⟩
          rcases Nat.lt_or_ge j (k + 3) with hlt | hge
          · exact hmax j hj (by omega)
          · have hj3 : j = k + 3 := by omega
            rw [hj3, hmin3]
            exact h
        · rintro ⟨h3, hik, hmin, hmax⟩
          have hne : i ≠ k + 3 := by
            intro hi
            rw [hi, hmin3] at hmin
            exact h hmin
          exact ⟨h3, by omega, hmin, fun j hj hjk => hmax j hj (by omega)⟩

theorem findBaseAux_small (s : List ℚ) (k : ℕ) (hk : k ≤ 2) : findBaseAux s k = none := by
  match k, hk with
  | 0, _ => rfl
  | 1, _ => rfl
  | 2, _ => rfl

theorem bestBaseIdx_eq_some (bars : List Bar) (i : ℕ) :
    bestBaseIdx bars = some i ↔
      (3 ≤ i ∧ i + 1 < bars.length ∧ isLocalMin (sizes bars) i ∧
        ∀ j, i < j → j + 1 < bars.length → ¬ isLocalMin (sizes bars) j) := by
  rw [bestBaseIdx, findBaseAux_eq_some]
  constructor
  · rintro ⟨h3, hik, hmin, hmax⟩
    exact ⟨h3, by omega, hmin, fun j hj hjk => hmax j hj (by omega)⟩
  · rintro ⟨h3, hik, hmin, hmax⟩
    exact ⟨h3, by omega, hmin, fun j hj hjk => hmax j hj (by omega)⟩

theorem ewmAux_length (a : ℚ) : ∀ (l : List ℚ) (prev : ℚ), (ewmAux a prev l).length = l.length := by
  intro l
  induction l with
  | nil => intro prev; rfl
  | cons x xs ih => intro prev; simp [ewmAux, ih]

theorem ewmAux_getD (a : ℚ) :
    ∀ (l : List ℚ) (prev : ℚ) (i : ℕ), i < l.length →
      (ewmAux a prev l).getD i 0 =
        a * l.getD i 0 +
          (1 - a) * (if i = 0 then prev else (ewmAux a prev l).getD (i - 1) 0) := by
  intro l
  induction l with
  | nil => intro prev i hi; simp at hi
  | cons x xs ih =>
    intro prev i hi
    cases i with
    | zero => simp [ewmAux]
    | succ n =>
      rw [List.length_cons] at hi
      have hn : n < xs.length := by omega
      show (ewmAux a (a * x + (1 - a) * prev) xs).getD n 0 = _
      rw [ih (a * x + (1 - a) * prev) n hn]
      cases n with
      | zero => simp [ewmAux]
      | succ m =>
        simp only [Nat.succ_ne_zero, if_false, List.getD_cons_succ, Nat.succ_sub_one]
        rfl

theorem seriesMax_eq_none : ∀ (l : List ℚ), seriesMax l = none ↔ l = [] := by
  intro l
  cases l with
  | nil => simp [seriesMax]
  | cons x xs =>
    simp only [seriesMax]
    cases seriesMax xs <;> simp

theorem seriesMax_lt_iff :
    ∀ (l : List ℚ) (m a : ℚ), seriesMax l = some m → (m < a ↔ ∀ y ∈ l, y < a) := by
  intro l
  induction l with
  | nil => intro m a h; simp [seriesMax] at h
  | cons x xs ih =>
    intro m a h
    simp only [seriesMax] at h
    cases hx : seriesMax xs with
    | none =>
      rw [hx] at h
      have hm : m = x := (Option.some.inj h).symm
      have hxs : xs = [] := (seriesMax_eq_none xs).mp hx
      subst hm; subst hxs
      simp
    | some m2 =>
      rw [hx] at h
      have hm : m = max x m2 := (Option.some.inj h).symm
      subst hm
      rw [max_lt_iff, ih m2 a hx]
      simp

theorem mem_dropLast_drop {α : Type} (d : α) (l : List α) (n : ℕ) (y : α) :
    y ∈ (l.drop n).dropLast ↔ ∃ j, n ≤ j ∧ j + 1 < l.length ∧ l.getD j d = y := by
  rw [List.mem_iff_getElem]
  constructor
  · rintro ⟨i, hi, hget⟩
    refine ⟨n + i, by omega, ?_, ?_⟩
    · have hlen : ((l.drop n).dropLast).length = l.length - n - 1 := by
        rw [List.length_dropLast, List.length_drop]
      omega
    · have hlen : ((l.drop n).dropLast).length = l.length - n - 1 := by
        rw [List.length_dropLast, List.length_drop]
      have hni : n + i < l.length := by omega
      rw [List.getD_eq_getElem l d hni]
      rw [← hget]
      rw [List.getElem_dropLast, List.getElem_drop]
  · rintro ⟨j, hnj, hjl, hget⟩
    have hlen : ((l.drop n).dropLast).length = l.length - n - 1 := by
      rw [List.length_dropLast, List.length_drop]
    refine ⟨j - n, by omega, ?_⟩
    rw [List.getElem_dropLast, List.getElem_drop]
    rw [← List.getD_eq_getElem l d (by omega : n + (j - n) < l.length)]
    have hj : n + (j - n) = j := by omega
    rw [hj]
    exact hget

/-! Concrete input series used by counterexamples and witnesses. -/

/-- Bars whose range sizes are the given values (low 0, high the value). -/
def sizedBars (vals : List ℚ) : List Bar := vals.map (fun v => mkBar 0 v)

def cexScanBars : List Bar := sizedBars [4, 1, 4, 1, 4]

def cexSelectBars : List Bar := sizedBars [4, 1, 4, 3, 2, 3]

def cexShortBars : List Bar := sizedBars [5, 1, 5, 1, 5]

def cexFirstBars : List Bar := [mkBar 0 1, mkBar 2 3]

def wShortBars : List Bar := sizedBars [1]

def wQuickBars : List Bar := sizedBars [1, 1, 1, 1, 1, 1, 1, 1]

/-! Claim theorems. -/

/-- C1, counterexample: on the series with range sizes `[4, 1, 4, 1, 4]` the
spec's scanner has qualifying candidates at indices 1 and 3, but the code's
scout loop emits only index 3 — the scan is not exhaustive. -/
theorem scan_not_exhaustive_cex :
    codeCandidates cexScanBars ≠ specScanCandidates cexScanBars := by
  norm_num [codeCandidates, bestBaseIdx, findBaseAux, sizes, size, cexScanBars, sizedBars,
    mkBar, specScanCandidates, List.range_succ]

/-- C1, amended: the scanner emits at most one candidate, namely the most
recent index `i ∈ [3, N-2]` whose range size is strictly smaller than both
neighbours; ratio thresholds play no part and earlier qualifying structures
are not emitted. -/
theorem scan_emits_most_recent_local_min (bars : List Bar) :
    (codeCandidates bars).length ≤ 1 ∧
    ∀ i, i ∈ codeCandidates bars ↔
      (3 ≤ i ∧ i + 1 < bars.length ∧ isLocalMin (sizes bars) i ∧
        ∀ j, i < j → j + 1 < bars.length → ¬ isLocalMin (sizes bars) j) := by
  constructor
  · rw [codeCandidates]
    cases bestBaseIdx bars <;> simp
  · intro i
    rw [codeCandidates]
    have hmem : i ∈ (bestBaseIdx bars).toList ↔ bestBaseIdx bars = some i := by
      cases bestBaseIdx bars <;> simp [eq_comm]
    rw [hmem, bestBaseIdx_eq_some]

/-- C2, counterexample: on the series with range sizes `[4, 1, 4, 3, 2, 3]`
the spec's candidate list is `[1]` (pristine or not), yet the code selects
index 4, which is not even a qualifying candidate — selection does not
maximize `(is_pristine, leg_out_ratio)`. -/
theorem selection_not_by_key_cex :
    ¬ (specScanCandidates cexSelectBars ≠ [] →
       ∃ s, bestBaseIdx cexSelectBars = some s ∧ s ∈ specScanCandidates cexSelectBars ∧
         ∀ j ∈ specScanCandidates cexSelectBars, candKeyLE cexSelectBars j s) := by
  intro h
  have hspec : specScanCandidates cexSelectBars = [1] := by
    norm_num [specScanCandidates, sizes, size, cexSelectBars, sizedBars, mkBar, List.range_succ]
  obtain ⟨s, hs, hmem, -⟩ := h (by rw [hspec]; simp)
  have hb : bestBaseIdx cexSelectBars = some 4 := by
    norm_num [bestBaseIdx, findBaseAux, sizes, size, cexSelectBars, sizedBars, mkBar]
  rw [hb] at hs
  have hs4 : s = 4 := (Option.some.inj hs).symm
  rw [hs4, hspec] at hmem
  simp at hmem

/-- C2, amended: the code's selection ignores pristine status and leg-out
strength entirely: the selected candidate is the most recent strict local
minimum of range size at an index in `[3, N-2]` (backward scan, first hit
wins). -/
theorem selection_most_recent_base (bars : List Bar) (s : ℕ)
    (h : bestBaseIdx bars = some s) :
    3 ≤ s ∧ s + 1 < bars.length ∧ isLocalMin (sizes bars) s ∧
      ∀ j, s < j → j + 1 < bars.length → ¬ isLocalMin (sizes bars) j :=
  (bestBaseIdx_eq_some bars s).mp h

/-- Witness for C2's amended theorem at the concrete series
`cexSelectBars`, whose selected base is index 4. -/
theorem selection_most_recent_base_witness :
    3 ≤ 4 ∧ 4 + 1 < cexSelectBars.length ∧ isLocalMin (sizes cexSelectBars) 4 ∧
      ∀ j, 4 < j → j + 1 < cexSelectBars.length → ¬ isLocalMin (sizes cexSelectBars) j :=
  selection_most_recent_base cexSelectBars 4
    (by norm_num [bestBaseIdx, findBaseAux, sizes, size, cexSelectBars, sizedBars, mkBar])

/-- C3, counterexample: at `distance_pct = 4` the claim's verdict is
`DoNotChase` (since `4 ≥ 3.5`), but the code issues the middle (`FAIR
ENTRY` / watching) advice because its threshold is `5.0`, not `3.5`. -/
theorem advice_threshold_cex :
    ¬ ((entryAdvice 4 = Advice.overextended) ↔ ((7 : ℚ) / 2 ≤ 4)) := by
  norm_num [entryAdvice]
  decide

/-- C3, amended: the advice branch uses thresholds `2.5` and `5.0` on
`distance_pct` alone — golden iff `d < 2.5`, fair iff `2.5 ≤ d < 5`,
overextended iff `d ≥ 5`; EMA status and any reliability score are never
consulted (the code computes no score), and exactly one branch holds. -/
theorem entry_advice_thresholds (d : ℚ) :
    (entryAdvice d = Advice.goldenEntry ↔ d < 5 / 2) ∧
    (entryAdvice d = Advice.fairEntry ↔ 5 / 2 ≤ d ∧ d < 5) ∧
    (entryAdvice d = Advice.overextended ↔ 5 ≤ d) := by
  unfold entryAdvice
  rcases lt_or_le d (5 / 2) with h1 | h1
  · rw [if_pos h1]
    refine ⟨by simp [h1], ?_, ?_⟩
    · constructor
      · intro h; exact absurd h (by simp)
      · rintro ⟨h2, -⟩; linarith
    · constructor
      · intro h; exact absurd h (by simp)
      · intro h2; linarith
  · rcases lt_or_le d 5 with h2 | h2
    · rw [if_neg (not_lt.mpr h1), if_pos h2]
      refine ⟨?_, by simp [h1, h2], ?_⟩
      · constructor
        · intro h; exact absurd h (by simp)
        · intro h3; linarith
      · constructor
        · intro h; exact absurd h (by simp)
        · intro h3; linarith
    · rw [if_neg (not_lt.mpr h1), if_neg (not_lt.mpr h2)]
      refine ⟨?_, ?_, by simp [h2]⟩
      · constructor
        · intro h; exact absurd h (by simp)
        · intro h3; linarith
      · constructor
        · intro h; exact absurd h (by simp)
        · rintro ⟨-, h3⟩; linarith

/-- C4: the violation count over `df.iloc[a+1:]` equals the number of
indices strictly greater than `a` whose bar's low is strictly below the
ceiling, and the white area is clean exactly when that count is zero. -/
theorem violation_count_spec (bars : List Bar) (a : ℕ) (c : ℚ) :
    violationCount bars a c =
      ((List.range bars.length).filter
        (fun i => decide (a < i ∧ (bars.getD i default).Low < c))).length ∧
    (whiteAreaClean bars a c = true ↔ violationCount bars a c = 0) := by
  constructor
  · rw [violationCount, filter_length_drop]
    congr 1
    apply List.filter_congr
    intro i hi
    by_cases hp : a < i <;> by_cases hq : (bars.getD i default).Low < c <;>
      simp [hp, hq, Nat.succ_le_iff]
  · rw [whiteAreaClean, violationCount, List.isEmpty_iff, List.length_eq_zero]

/-- C9: appending bars to the series never decreases the violation count of
a fixed anchor with a fixed ceiling. -/
theorem violation_count_monotone (bars ext : List Bar) (a : ℕ) (c : ℚ) :
    violationCount bars a c ≤ violationCount (bars ++ ext) a c := by
  rw [violationCount, violationCount, List.drop_append_eq_append_drop, List.filter_append,
    List.length_append]
  omega

/-- C5, counterexample: the first bar's true range is not its range size —
the shifted previous close is NaN and numpy's `maximum` propagates it, so
`TR[0]` is NaN (`none`), not `high - low`. -/
theorem first_true_range_cex :
    ¬ (trueRange cexFirstBars 0 =
        some ((cexFirstBars.getD 0 default).High - (cexFirstBars.getD 0 default).Low)) := by
  simp [trueRange]

/-- C5, amended: `TR[0]` is NaN (undefined) because no previous close
exists and the NaN propagates through `abs` and `maximum`; for every index
`i ≥ 1` inside the series the claimed maximum formula holds. -/
theorem true_range_values (bars : List Bar) (i : ℕ) (h1 : 1 ≤ i) (h2 : i < bars.length) :
    trueRange bars 0 = none ∧
    trueRange bars i =
      some (max ((bars.getD i default).High - (bars.getD i default).Low)
        (max |(bars.getD i default).High - (bars.getD (i - 1) default).Close|
             |(bars.getD i default).Low - (bars.getD (i - 1) default).Close|)) := by
  constructor
  · simp [trueRange]
  · rw [trueRange, if_neg (by omega), if_pos h2]

/-- Witness for C5's amended theorem at the two-bar series `cexFirstBars`
and index 1. -/
theorem true_range_values_witness :
    trueRange cexFirstBars 0 = none ∧
    trueRange cexFirstBars 1 =
      some (max ((cexFirstBars.getD 1 default).High - (cexFirstBars.getD 1 default).Low)
        (max |(cexFirstBars.getD 1 default).High - (cexFirstBars.getD 0 default).Close|
             |(cexFirstBars.getD 1 default).Low - (cexFirstBars.getD 0 default).Close|)) :=
  true_range_values cexFirstBars 1 (by norm_num) (by norm_num [cexFirstBars])

/-- C6, counterexample: a ratio with an exactly-zero denominator is not
propagated as undefined — the code's guard `if den != 0 else 0` coerces it
to `0`. -/
theorem zero_denominator_cex :
    ¬ ((((some 0 : Option ℚ) = none) ∨ ((some 0 : Option ℚ) = some 0)) →
       ratioOrZero (some 1) (some 0) = none) := by
  intro h
  have h0 := h (Or.inr rfl)
  simp [ratioOrZero] at h0

/-- C6, amended: an undefined (NaN) denominator or numerator does propagate
as undefined without raising, but an exactly-zero denominator is coerced to
ratio `0` (both in `TR/ATR` and in `leg_out/base`), never to an undefined
value. -/
theorem ratio_nan_and_zero (num : Option ℚ) (d : ℚ) (hd : d ≠ 0) :
    ratioOrZero num none = none ∧
    ratioOrZero none (some d) = none ∧
    ratioOrZero num (some 0) = some 0 ∧
    ratioOut d 0 = 0 := by
  refine ⟨rfl, ?_, ?_, ?_⟩
  · simp [ratioOrZero, hd]
  · simp [ratioOrZero]
  · simp [ratioOut]

/-- Witness for C6's amended theorem at `num = some 1`, `d = 2`. -/
theorem ratio_nan_and_zero_witness :
    ratioOrZero (some 1) none = none ∧
    ratioOrZero none (some 2) = none ∧
    ratioOrZero (some 1) (some 0) = some 0 ∧
    ratioOut 2 0 = 0 :=
  ratio_nan_and_zero (some 1) 2 (by norm_num)

/-- C7: the exponential average seeds with the first close and obeys
`ema[i+1] = a*close[i+1] + (1-a)*ema[i]` with `a = 2/(span+1)`, for any
span — in particular the fast (20) and slow (50) spans used by both
screeners. -/
theorem ewm_recurrence (span : ℕ) (xs : List ℚ) (i : ℕ)
    (hne : xs ≠ []) (hi : i + 1 < xs.length) :
    (ewmMean span xs).getD 0 0 = xs.getD 0 0 ∧
    (ewmMean span xs).getD (i + 1) 0 =
      2 / ((span : ℚ) + 1) * xs.getD (i + 1) 0 +
        (1 - 2 / ((span : ℚ) + 1)) * (ewmMean span xs).getD i 0 := by
  match xs, hne with
  | x :: rest, _ =>
    constructor
    · simp [ewmMean]
    · rw [List.length_cons] at hi
      have hr : i < rest.length := by omega
      have hm : ewmMean span (x :: rest) = x :: ewmAux (2 / ((span : ℚ) + 1)) x rest := rfl
      rw [hm, List.getD_cons_succ, List.getD_cons_succ,
        ewmAux_getD (2 / ((span : ℚ) + 1)) rest x i hr]
      cases i with
      | zero => simp
      | succ m => simp [List.getD_cons_succ]

/-- Witness for C7 at span 20, closes `[1, 2, 3]`, index 1. -/
theorem ewm_recurrence_witness :
    (ewmMean 20 [1, 2, 3]).getD 0 0 = ([1, 2, 3] : List ℚ).getD 0 0 ∧
    (ewmMean 20 [1, 2, 3]).getD 2 0 =
      2 / ((20 : ℚ) + 1) * ([1, 2, 3] : List ℚ).getD 2 0 +
        (1 - 2 / ((20 : ℚ) + 1)) * (ewmMean 20 [1, 2, 3]).getD 1 0 :=
  ewm_recurrence 20 [1, 2, 3] 1 (by simp) (by simp)

theorem runPatternTracker_isSome (bars : List Bar) (hne : bars ≠ []) :
    (runPatternTracker bars).isSome = true := by
  have he : bars.isEmpty = false := by simpa using hne
  rw [runPatternTracker]
  rw [if_neg (by simp [he])]
  cases bestBaseIdx bars <;> rfl

theorem runPatternTracker_candle_found (bars : List Bar) (r : ScanRes)
    (h : runPatternTracker bars = some r) : r.candle_found = (bestBaseIdx bars).isSome := by
  by_cases he : bars.isEmpty
  · rw [runPatternTracker, if_pos he] at h
    exact absurd h (by simp)
  · rw [runPatternTracker, if_neg he] at h
    cases hb : bestBaseIdx bars with
    | none =>
      rw [hb] at h
      simp only [Option.some.injEq] at h
      rw [← h]
      rfl
    | some i =>
      rw [hb] at h
      simp only [Option.some.injEq] at h
      rw [← h]
      rfl

/-- C8, counterexample: a 5-bar series (so `3 ≤ N < 17`) on which the
engine neither fails nor returns a no-setup result — it finds a base and
reports a full setup. -/
theorem short_series_setup_cex :
    ¬ (3 ≤ cexShortBars.length → cexShortBars.length < 17 →
       ∃ r, runPatternTracker cexShortBars = some r ∧ r.candle_found = false) := by
  intro h
  have hlen : cexShortBars.length = 5 := by norm_num [cexShortBars, sizedBars]
  obtain ⟨r, hr, hcf⟩ := h (by omega) (by omega)
  have hb : bestBaseIdx cexShortBars = some 3 := by
    norm_num [bestBaseIdx, findBaseAux, sizes, size, cexShortBars, sizedBars, mkBar]
  have hcf2 := runPatternTracker_candle_found cexShortBars r hr
  rw [hb] at hcf2
  rw [hcf] at hcf2
  exact absurd hcf2.symm (by simp)

/-- C8, amended: no `InsufficientDataError` exists — the engine only checks
for an empty frame (returning a no-data response) and otherwise always
produces a result for any length, with `candle_found = false` guaranteed
when `N ≤ 4` (the scout loop's range is empty); for `5 ≤ N < 17` a full
setup may be reported. -/
theorem tracker_never_fails (bars : List Bar) (hne : bars ≠ []) :
    runPatternTracker [] = none ∧
    ∃ r, runPatternTracker bars = some r ∧ (bars.length ≤ 4 → r.candle_found = false) := by
  refine ⟨rfl, ?_⟩
  cases hr : runPatternTracker bars with
  | none =>
    have hs := runPatternTracker_isSome bars hne
    rw [hr] at hs
    exact absurd hs (by simp)
  | some r =>
    refine ⟨r, rfl, fun h4 => ?_⟩
    rw [runPatternTracker_candle_found bars r hr]
    cases hb : bestBaseIdx bars with
    | none => rfl
    | some i =>
      exfalso
      obtain ⟨h3, hlen, -, -⟩ := (bestBaseIdx_eq_some bars i).mp hb
      omega

/-- Witness for C8's amended theorem at the one-bar series `wShortBars`. -/
theorem tracker_never_fails_witness :
    runPatternTracker [] = none ∧
    ∃ r, runPatternTracker wShortBars = some r ∧
      (wShortBars.length ≤ 4 → r.candle_found = false) :=
  tracker_never_fails wShortBars (by norm_num [wShortBars, sizedBars])

theorem getD_map_high (bars : List Bar) (j : ℕ) (hj : j < bars.length) :
    (bars.map Bar.High).getD j 0 = (bars.getD j default).High := by
  rw [List.getD_eq_getElem _ 0 (by simpa using hj), List.getElem_map,
    List.getD_eq_getElem _ default hj]

theorem white_area_iff (bars : List Bar) (h8 : 8 ≤ bars.length) :
    whiteAreaPass bars = true ↔
      ∀ j, bars.length - 8 ≤ j → j ≤ bars.length - 2 →
        (bars.getD j default).High < (bars.getD (bars.length - 1) default).Low := by
  unfold whiteAreaPass prev7dHigh
  have hlen : (((bars.map Bar.High).drop (bars.length - 8)).dropLast).length = 7 := by
    rw [List.length_dropLast, List.length_drop, List.length_map]
    omega
  cases hm : seriesMax (((bars.map Bar.High).drop (bars.length - 8)).dropLast) with
  | none =>
    exfalso
    have he := (seriesMax_eq_none _).mp hm
    rw [he] at hlen
    simp at hlen
  | some m =>
    simp only [decide_eq_true_eq]
    rw [seriesMax_lt_iff _ m _ hm]
    constructor
    · intro hy j hj1 hj2
      have hjlt : j + 1 < bars.length := by omega
      have hmem := hy ((bars.getD j default).High) ?_
      · exact hmem
      · rw [mem_dropLast_drop (0 : ℚ)]
        refine ⟨j, hj1, by simpa using hjlt, getD_map_high bars j (by omega)⟩
    · intro hy y hyl
      rw [mem_dropLast_drop (0 : ℚ)] at hyl
      obtain ⟨j, hj1, hj2, hj3⟩ := hyl
      have hjlen : j + 1 < bars.length := by simpa using hj2
      rw [← hj3, getD_map_high bars j (by omega)]
      exact hy j hj1 (by omega)

/-- C10: for a series of at least 8 bars, the desktop screener's verdict is
`SAFE TO INVEST` exactly when the pulse test (EMA20 above EMA50 at the last
bar and a rising last candle), the 1-2-4 test on the final three bars, and
the white-area test (last low strictly above every high at offsets -8
through -2) all hold; otherwise it is `AVOID - SETUP INCOMPLETE`. -/
theorem safe_to_invest_spec (bars : List Bar) (h8 : 8 ≤ bars.length) :
    quickVerdict bars = "SAFE TO INVEST" ↔
      (((ewmMean 20 (bars.map Bar.Close)).getD (bars.length - 1) 0
          > (ewmMean 50 (bars.map Bar.Close)).getD (bars.length - 1) 0) ∧
        (bars.getD (bars.length - 1) default).Close
          > (bars.getD (bars.length - 1) default).Open) ∧
      ((sizes bars).getD (bars.length - 3) 0 ≥ 2 * (sizes bars).getD (bars.length - 2) 0 ∧
        (sizes bars).getD (bars.length - 1) 0 ≥ 4 * (sizes bars).getD (bars.length - 2) 0) ∧
      (∀ j, bars.length - 8 ≤ j → j ≤ bars.length - 2 →
        (bars.getD j default).High < (bars.getD (bars.length - 1) default).Low) := by
  have hq : quickVerdict bars = "SAFE TO INVEST" ↔ safeToInvest bars = true := by
    unfold quickVerdict
    cases hs : safeToInvest bars
    · rw [if_neg (by simp [hs])]
      constructor
      · intro h; exact absurd h (by decide)
      · intro h; exact absurd h (by simp)
    · rw [if_pos (by simp [hs])]
      simp
  rw [hq]
  unfold safeToInvest
  rw [Bool.and_eq_true, Bool.and_eq_true]
  rw [white_area_iff bars h8]
  unfold pulse ratioPass
  rw [Bool.and_eq_true, Bool.and_eq_true]
  simp only [decide_eq_true_eq]
  tauto

/-- Witness for C10 at a flat 8-bar series. -/
theorem safe_to_invest_spec_witness :
    quickVerdict wQuickBars = "SAFE TO INVEST" ↔
      (((ewmMean 20 (wQuickBars.map Bar.Close)).getD (wQuickBars.length - 1) 0
          > (ewmMean 50 (wQuickBars.map Bar.Close)).getD (wQuickBars.length - 1) 0) ∧
        (wQuickBars.getD (wQuickBars.length - 1) default).Close
          > (wQuickBars.getD (wQuickBars.length - 1) default).Open) ∧
      ((sizes wQuickBars).getD (wQuickBars.length - 3) 0
          ≥ 2 * (sizes wQuickBars).getD (wQuickBars.length - 2) 0 ∧
        (sizes wQuickBars).getD (wQuickBars.length - 1) 0
          ≥ 4 * (sizes wQuickBars).getD (wQuickBars.length - 2) 0) ∧
      (∀ j, wQuickBars.length - 8 ≤ j → j ≤ wQuickBars.length - 2 →
        (wQuickBars.getD j default).High
          < (wQuickBars.getD (wQuickBars.length - 1) default).Low) :=
  safe_to_invest_spec wQuickBars (by norm_num [wQuickBars, sizedBars])

end StockScreener
